import Mathlib

/-!
Shallow embedding of the non-UI core of `src/components/Dashboard.tsx`
(indie-outdoors dashboard): the row data model, the filter engine
(`filteredData`), the graph derivation inside `createNetworkGraph`
(node construction, node map, link construction), and the load/error
state transition of the initial data fetch.

JavaScript primitives are modelled as follows:
* `String.prototype.includes` is substring containment (`jsIncludes`),
* `String.prototype.toLowerCase` is `String.toLower`,
* `parseInt` (radix 10, as applied to year strings) is `parseIntJs`:
  leading whitespace is skipped, an optional sign is read, then the
  longest run of leading decimal digits; no digits means `NaN`,
  modelled as `none`,
* a JavaScript `Map` built from an entry list, queried with `get`, is
  `nodeMapGet`: the last entry for a key wins.
-/

namespace IndieOutdoors

/-- A row of `companies.csv`, mirroring the `CompanyData` interface of
`Dashboard.tsx` (nine string-valued columns). -/
structure CompanyData where
  Company : String
  MainSportFocus : String
  YearFounded : String
  Financials : String
  OwnershipStatus : String
  Headquarters : String
  MainManufacturing : String
  EnvironmentalPolicies : String
  AcquisitionHistory : String
  deriving DecidableEq, Repr

/-- Graph node from `createNetworkGraph`: `id` is the company name,
`group` the first comma-separated token of Main Sport Focus. -/
structure Node where
  id : String
  group : String
  deriving DecidableEq, Repr

/-- Graph link from `createNetworkGraph`: source and target nodes. -/
structure Link where
  source : Node
  target : Node
  deriving DecidableEq, Repr

/-- A value of the `filters` state object: either a string (exact-match
constraint from a Select) or a numeric pair (the Year Founded slider
range `[lo, hi]`). -/
inductive FilterValue where
  | str (value : String)
  | range (lo hi : Int)
  deriving DecidableEq, Repr

/-- The `filters` state: entries of a JavaScript object, iterated by
`Object.entries` in insertion order. -/
abbrev FilterState := List (String × FilterValue)

/-- JavaScript `s.includes(pat)`: `pat` occurs contiguously in `s`. -/
def jsIncludes (s pat : String) : Bool :=
  decide (pat.toList <:+: s.toList)

/-- JavaScript `s.toLowerCase()` on the ASCII fragment relevant to the
dataset: each character is lowercased. -/
def jsToLower (s : String) : String :=
  ⟨s.toList.map Char.toLower⟩

/-- JavaScript `s.trim()`: leading and trailing whitespace removed. -/
def jsTrim (s : String) : String :=
  ⟨((s.toList.dropWhile Char.isWhitespace).reverse.dropWhile Char.isWhitespace).reverse⟩

/-- JavaScript `s.split(',')[0]`: the text before the first comma, or
all of `s` when it has no comma. -/
def firstToken (s : String) : String :=
  ⟨s.toList.takeWhile fun c => c ≠ ','⟩

/-- Column access `company[column]` for the nine known columns;
`none` models `undefined` for any other key. -/
def getField (company : CompanyData) (column : String) : Option String :=
  match column with
  | "Company" => some company.Company
  | "Main Sport Focus" => some company.MainSportFocus
  | "Year Founded" => some company.YearFounded
  | "Financials" => some company.Financials
  | "Ownership Status" => some company.OwnershipStatus
  | "Headquarters" => some company.Headquarters
  | "Main Manufacturing" => some company.MainManufacturing
  | "Environmental & Sustainability Policies" => some company.EnvironmentalPolicies
  | "Acquisition History" => some company.AcquisitionHistory
  | _ => none

/-- Value of a run of decimal digit characters, most significant first. -/
def digitsValue (ds : List Char) : Nat :=
  ds.foldl (fun a c => a * 10 + (c.toNat - 48)) 0

/-- Reads the longest run of leading decimal digits of `cs` and applies
`sign`; `none` when there is no leading digit. -/
def parseIntegerPart (cs : List Char) (sign : Int) : Option Int :=
  let ds := cs.takeWhile Char.isDigit
  if ds.isEmpty then none else some (sign * (digitsValue ds : Int))

/-- Sign handling of `parseInt` on the whitespace-trimmed character
list: an optional leading sign, then the digit run. -/
def parseIntAfterTrim (cs : List Char) : Option Int :=
  match cs with
  | [] => none
  | c :: rest =>
    if c = '-' then parseIntegerPart rest (-1)
    else if c = '+' then parseIntegerPart rest 1
    else parseIntegerPart (c :: rest) 1

/-- JavaScript `parseInt(s)` restricted to decimal input, as applied to
the Year Founded column: skip leading whitespace, read an optional
sign, then the longest run of decimal digits; `none` models `NaN`. -/
def parseIntJs (s : String) : Option Int :=
  parseIntAfterTrim (s.toList.dropWhile Char.isWhitespace)

/-- One iteration of `Object.entries(filters).every(...)` in
`filteredData`: an empty-string value is falsy, hence no constraint; a
numeric pair on the Year Founded column is an inclusive range check on
the parsed year (parse failure excludes the row); a numeric pair on any
other column compares a string to an array with `===`, which is false;
a non-empty string is an exact match on the column value. -/
def filterEntryPasses (company : CompanyData) (column : String) (value : FilterValue) : Bool :=
  match value with
  | .str s =>
    if s = "" then true
    else getField company column == some s
  | .range lo hi =>
    if column = "Year Founded" then
      match parseIntJs company.YearFounded with
      | some year => decide (lo ≤ year) && decide (year ≤ hi)
      | none => false
    else false

/-- The search stage of `filteredData`: an empty term passes every row,
otherwise the lowercased term must occur in the lowercased Company,
Main Sport Focus, or Headquarters field. -/
def rowPassesSearch (searchTerm : String) (company : CompanyData) : Bool :=
  if searchTerm = "" then true
  else
    jsIncludes (jsToLower company.Company) (jsToLower searchTerm) ||
    jsIncludes (jsToLower company.MainSportFocus) (jsToLower searchTerm) ||
    jsIncludes (jsToLower company.Headquarters) (jsToLower searchTerm)

/-- The filter stage of `filteredData`: every entry of the `filters`
object must pass. -/
def rowPassesFilters (filters : FilterState) (company : CompanyData) : Bool :=
  filters.all fun e => filterEntryPasses company e.1 e.2

/-- The `filteredData` computation of `Dashboard.tsx`: a row is kept iff
it passes both the search stage and the filter stage; order is
preserved. -/
def filteredData (data : List CompanyData) (searchTerm : String)
    (filters : FilterState) : List CompanyData :=
  data.filter fun company =>
    rowPassesSearch searchTerm company && rowPassesFilters filters company

/-- Node construction in `createNetworkGraph`: id is the company name,
group is the text before the first comma of Main Sport Focus, trimmed. -/
def makeNode (d : CompanyData) : Node :=
  { id := d.Company, group := jsTrim (firstToken d.MainSportFocus) }

/-- The node list of `createNetworkGraph`, one node per filtered row. -/
def createNodes (rows : List CompanyData) : List Node :=
  rows.map makeNode

/-- Lookup in the `nodeMap` built by `new Map(nodes.map(n => [n.id, n]))`:
the last entry for a key wins. -/
def nodeMapGet (nodes : List Node) (key : String) : Option Node :=
  nodes.reverse.find? fun node => node.id == key

/-- The body of the inner loop of link construction: when the outer
company's Acquisition History contains the other company's name and the
names differ, a link from the outer company's node to the other
company's node is produced (provided both nodes resolve). -/
def linkCandidate (nodes : List Node) (company otherCompany : CompanyData) : Option Link :=
  if jsIncludes company.AcquisitionHistory otherCompany.Company
      && company.Company != otherCompany.Company then
    match nodeMapGet nodes company.Company, nodeMapGet nodes otherCompany.Company with
    | some sourceNode, some targetNode => some { source := sourceNode, target := targetNode }
    | _, _ => none
  else none

/-- Link construction in `createNetworkGraph`: both nested `forEach`
loops over the filtered rows, pushing candidates in iteration order. -/
def createLinks (rows : List CompanyData) : List Link :=
  rows.flatMap fun company => rows.filterMap (linkCandidate (createNodes rows) company)

/-- The dashboard's load-relevant state: `data`, `loading`, `error`. -/
structure DashboardState where
  data : List CompanyData
  loading : Bool
  error : Option String
  deriving DecidableEq, Repr

/-- Initial state of the `Dashboard` component. -/
def initialState : DashboardState :=
  { data := [], loading := true, error := none }

/-- Outcome of the single `axios.get`/`csvParse` attempt: parsed rows,
or any thrown transport/parse error (caught uniformly). -/
inductive FetchResult where
  | ok (rows : List CompanyData)
  | failure
  deriving DecidableEq, Repr

/-- The `fetchData` state transition: on success the rows are stored; on
any error the message is set to the fixed string; either way `loading`
ends. -/
def applyFetch (s : DashboardState) (result : FetchResult) : DashboardState :=
  match result with
  | .ok rows => { s with data := rows, loading := false }
  | .failure => { s with error := some "Failed to load data", loading := false }

/-- Guard of the effect that calls `createNetworkGraph`: it runs only
when `data.length > 0`. -/
def graphEffectFires (s : DashboardState) : Bool :=
  decide (0 < s.data.length)

/-- Concrete rows used as witnesses, following the spec's running
example (Acme with empty history, Beta whose history mentions Acme). -/
def acmeRow : CompanyData :=
  { Company := "Acme", MainSportFocus := "Climbing", YearFounded := "1990s"
    Financials := "", OwnershipStatus := "Independent", Headquarters := "Denver"
    MainManufacturing := "", EnvironmentalPolicies := "", AcquisitionHistory := "" }

def betaRow : CompanyData :=
  { Company := "Beta", MainSportFocus := "Hiking, Trail", YearFounded := "2001"
    Financials := "", OwnershipStatus := "Independent", Headquarters := "Boulder"
    MainManufacturing := "", EnvironmentalPolicies := ""
    AcquisitionHistory := "Beta acquired Acme in 2020" }

/-- A pair of rows that mention each other in their histories. -/
def gammaRow : CompanyData :=
  { Company := "Gamma", MainSportFocus := "Skiing", YearFounded := "1985"
    Financials := "", OwnershipStatus := "", Headquarters := "Salt Lake City"
    MainManufacturing := "", EnvironmentalPolicies := ""
    AcquisitionHistory := "Gamma bought Delta in 2015" }

def deltaRow : CompanyData :=
  { Company := "Delta", MainSportFocus := "Skiing", YearFounded := "1999"
    Financials := "", OwnershipStatus := "", Headquarters := "Reno"
    MainManufacturing := "", EnvironmentalPolicies := ""
    AcquisitionHistory := "Spun out of Gamma in 2016" }

/-- A row whose Year Founded does not parse as an integer. -/
def epsilonRow : CompanyData :=
  { Company := "Epsilon", MainSportFocus := "Surfing", YearFounded := "circa 1990"
    Financials := "", OwnershipStatus := "", Headquarters := "San Diego"
    MainManufacturing := "", EnvironmentalPolicies := "", AcquisitionHistory := "" }

/-- C3: filtering with the empty search term and the empty filter state
is the identity on the row list: same rows, same order, nothing added,
removed or modified. -/
theorem filteredData_empty_is_identity (data : List CompanyData) :
    filteredData data "" [] = data := by
  simp [filteredData, rowPassesSearch, rowPassesFilters]

/-- C2: with a non-empty search term and the empty filter state, a row
is kept by `filteredData` iff the lowercased term is a substring of the
lowercased Company, Main Sport Focus, or Headquarters field. -/
theorem search_keeps_row_iff (data : List CompanyData) (searchTerm : String)
    (hterm : searchTerm ≠ "") (company : CompanyData) :
    company ∈ filteredData data searchTerm [] ↔
      company ∈ data ∧
        ((jsToLower searchTerm).toList <:+: (jsToLower company.Company).toList ∨
         (jsToLower searchTerm).toList <:+: (jsToLower company.MainSportFocus).toList ∨
         (jsToLower searchTerm).toList <:+: (jsToLower company.Headquarters).toList) := by
  simp [filteredData, List.mem_filter, rowPassesSearch, rowPassesFilters,
    jsIncludes, hterm]
  tauto

theorem search_keeps_row_iff_witness :
    acmeRow ∈ filteredData [acmeRow, betaRow] "acme" [] ↔
      acmeRow ∈ [acmeRow, betaRow] ∧
        ((jsToLower "acme").toList <:+: (jsToLower acmeRow.Company).toList ∨
         (jsToLower "acme").toList <:+: (jsToLower acmeRow.MainSportFocus).toList ∨
         (jsToLower "acme").toList <:+: (jsToLower acmeRow.Headquarters).toList) :=
  search_keeps_row_iff [acmeRow, betaRow] "acme" (by decide) acmeRow

/-- C4: the Year Founded range check is inclusive at both ends: a row
whose parsed year equals the lower or the upper bound passes the filter
stage when the range is the active constraint. -/
theorem yearRange_inclusive (company : CompanyData) (lo hi year : Int)
    (hparse : parseIntJs company.YearFounded = some year)
    (hlohi : lo ≤ hi) (hedge : year = lo ∨ year = hi) :
    rowPassesFilters [("Year Founded", FilterValue.range lo hi)] company = true := by
  simp only [rowPassesFilters, List.all_cons, List.all_nil, Bool.and_true,
    filterEntryPasses, if_pos rfl, hparse]
  rcases hedge with rfl | rfl <;> simp <;> omega

theorem yearRange_inclusive_witness :
    rowPassesFilters [("Year Founded", FilterValue.range 2001 2005)] betaRow = true :=
  yearRange_inclusive betaRow 2001 2005 2001 (by decide) (by decide) (Or.inl rfl)

/-- C5: a row whose Year Founded does not parse is excluded from the
filtered result whenever some Year Founded range constraint is active,
for every search term, every further constraint, and every bounds. -/
theorem unparseableYear_excluded (data : List CompanyData) (searchTerm : String)
    (filters : FilterState) (company : CompanyData) (lo hi : Int)
    (hactive : ("Year Founded", FilterValue.range lo hi) ∈ filters)
    (hparse : parseIntJs company.YearFounded = none) :
    company ∉ filteredData data searchTerm filters := by
  intro hmem
  rw [filteredData, List.mem_filter, Bool.and_eq_true] at hmem
  have hall := hmem.2.2
  rw [rowPassesFilters, List.all_eq_true] at hall
  have := hall _ hactive
  simp [filterEntryPasses, hparse] at this

theorem unparseableYear_excluded_witness :
    epsilonRow ∉
      filteredData [epsilonRow] "" [("Year Founded", FilterValue.range 1900 2000)] :=
  unparseableYear_excluded [epsilonRow] ""
    [("Year Founded", FilterValue.range 1900 2000)] epsilonRow 1900 2000
    (by decide) (by decide)

/-- C6: a filter entry whose value is the empty string imposes no
constraint: filtering with it present is the same function of the row
set as filtering with the entry removed, so a column cannot be
constrained to equal the empty string. -/
theorem emptyString_filter_is_no_constraint (data : List CompanyData)
    (searchTerm : String) (fs1 fs2 : FilterState) (column : String) :
    filteredData data searchTerm (fs1 ++ (column, FilterValue.str "") :: fs2) =
      filteredData data searchTerm (fs1 ++ fs2) := by
  unfold filteredData
  apply List.filter_congr
  intro c _
  simp [rowPassesFilters, List.all_append, List.all_cons, filterEntryPasses]

/-- C9: when the single dataset fetch fails, the dashboard state holds a
non-empty error message, the row set stays empty, and the effect that
runs the node/link derivation (guarded by a non-empty row set) does not
fire. The fetch runs once per session, so this state is terminal. -/
theorem loadFailure_terminal_error_state :
    ∃ message, (applyFetch initialState FetchResult.failure).error = some message ∧
      message ≠ "" ∧
      (applyFetch initialState FetchResult.failure).data = [] ∧
      graphEffectFires (applyFetch initialState FetchResult.failure) = false :=
  ⟨"Failed to load data", rfl, by decide, rfl, rfl⟩

lemma digit_not_whitespace (c : Char) (h : c.isDigit = true) :
    c.isWhitespace = false := by
  by_contra hw
  rw [Bool.not_eq_false] at hw
  simp only [Char.isWhitespace, Bool.or_eq_true, decide_eq_true_eq] at hw
  rcases hw with ((rfl | rfl) | rfl) | rfl <;> exact absurd h (by decide)

lemma digit_ne_dash (c : Char) (h : c.isDigit = true) : c ≠ '-' := by
  rintro rfl; exact absurd h (by decide)

lemma digit_ne_plus (c : Char) (h : c.isDigit = true) : c ≠ '+' := by
  rintro rfl; exact absurd h (by decide)

lemma takeWhile_digits_append (ds : List Char) (c : Char) (rest : List Char)
    (hds : ∀ d ∈ ds, d.isDigit = true) (hc : c.isDigit = false) :
    (ds ++ c :: rest).takeWhile Char.isDigit = ds := by
  induction ds with
  | nil => simp [List.takeWhile_cons, hc]
  | cons d ds ih =>
    have hd := hds d (List.mem_cons_self d ds)
    simp only [List.cons_append, List.takeWhile_cons, hd, if_true, List.cons.injEq, true_and]
    exact ih fun x hx => hds x (List.mem_cons_of_mem _ hx)

/-- A Year Founded string that starts with a digit run parses to the
value of that run, whatever follows it. -/
lemma parseIntJs_leading_digits (s : String) (ds : List Char) (c : Char)
    (rest : List Char) (hs : s.toList = ds ++ c :: rest) (hne : ds ≠ [])
    (hds : ∀ d ∈ ds, d.isDigit = true) (hc : c.isDigit = false) :
    parseIntJs s = some (digitsValue ds) := by
  obtain ⟨d, ds', rfl⟩ : ∃ d ds', ds = d :: ds' := by
    cases ds with
    | nil => exact absurd rfl hne
    | cons a l => exact ⟨a, l, rfl⟩
  have hd : d.isDigit = true := hds d (List.mem_cons_self d ds')
  have hsplit : (d :: (ds' ++ c :: rest)).takeWhile Char.isDigit = d :: ds' := by
    rw [← List.cons_append]
    exact takeWhile_digits_append _ _ _ hds hc
  rw [parseIntJs, hs, List.cons_append, List.dropWhile_cons,
    digit_not_whitespace d hd]
  simp only [Bool.false_eq_true, if_false, parseIntAfterTrim,
    if_neg (digit_ne_dash d hd), if_neg (digit_ne_plus d hd)]
  simp only [parseIntegerPart, hsplit]
  simp

/-- C10: a row whose Year Founded starts with a digit run followed by
further non-numeric text is treated by an active Year Founded range
constraint as having that leading integer as its year, and passes the
filter stage whenever that integer lies inside the inclusive range. -/
theorem leadingInteger_year_included (company : CompanyData) (ds rest : List Char)
    (c : Char) (lo hi : Int)
    (hs : company.YearFounded.toList = ds ++ c :: rest) (hne : ds ≠ [])
    (hds : ∀ d ∈ ds, d.isDigit = true) (hc : c.isDigit = false)
    (hlo : lo ≤ (digitsValue ds : Int)) (hhi : (digitsValue ds : Int) ≤ hi) :
    parseIntJs company.YearFounded = some (digitsValue ds) ∧
      rowPassesFilters [("Year Founded", FilterValue.range lo hi)] company = true := by
  have hp := parseIntJs_leading_digits _ ds c rest hs hne hds hc
  refine ⟨hp, ?_⟩
  simp [rowPassesFilters, filterEntryPasses, hp]
  exact ⟨hlo, hhi⟩

theorem leadingInteger_year_included_witness :
    parseIntJs acmeRow.YearFounded = some (digitsValue ['1', '9', '9', '0']) ∧
      rowPassesFilters [("Year Founded", FilterValue.range 1990 2000)] acmeRow = true :=
  leadingInteger_year_included acmeRow ['1', '9', '9', '0'] [] 's' 1990 2000
    (by decide) (by decide) (by decide) (by decide) (by decide) (by decide)

/-- C8: every link produced by the link construction joins two distinct
node ids; there is no self-link. -/
theorem no_self_links (rows : List CompanyData) (link : Link)
    (hmem : link ∈ createLinks rows) :
    link.source.id ≠ link.target.id := by
  rw [createLinks, List.mem_flatMap] at hmem
  obtain ⟨company, -, hinner⟩ := hmem
  rw [List.mem_filterMap] at hinner
  obtain ⟨other, -, hcand⟩ := hinner
  rw [linkCandidate] at hcand
  split at hcand
  case isFalse => exact absurd hcand (by simp)
  case isTrue hcond =>
    rw [Bool.and_eq_true, bne_iff_ne] at hcond
    split at hcand
    case h_2 => exact absurd hcand (by simp)
    case h_1 s t hsrc htgt =>
      obtain rfl := Option.some.inj hcand
      rw [nodeMapGet] at hsrc htgt
      have hsid := List.find?_some hsrc
      have htid := List.find?_some htgt
      rw [beq_iff_eq] at hsid htid
      simpa [hsid, htid] using hcond.2

theorem no_self_links_witness :
    ({ source := makeNode betaRow, target := makeNode acmeRow } : Link).source.id ≠
      ({ source := makeNode betaRow, target := makeNode acmeRow } : Link).target.id :=
  no_self_links [acmeRow, betaRow] _ (by decide)

lemma flatMap_congr_mem {α β : Type _} (l : List α) (f g : α → List β)
    (h : ∀ a ∈ l, f a = g a) : l.flatMap f = l.flatMap g := by
  induction l with
  | nil => rfl
  | cons x xs ih =>
    rw [List.flatMap_cons, List.flatMap_cons, h x (List.mem_cons_self x xs),
      ih fun a ha => h a (List.mem_cons_of_mem _ ha)]

lemma filterMap_congr_mem {α β : Type _} (l : List α) (f g : α → Option β)
    (h : ∀ a ∈ l, f a = g a) : l.filterMap f = l.filterMap g := by
  induction l with
  | nil => rfl
  | cons x xs ih =>
    rw [List.filterMap_cons, List.filterMap_cons, h x (List.mem_cons_self x xs),
      ih fun a ha => h a (List.mem_cons_of_mem _ ha)]

lemma filterMap_guard_eq_map_filter {α β : Type _} (l : List α) (p : α → Bool)
    (f : α → β) :
    l.filterMap (fun a => if p a then some (f a) else none) = (l.filter p).map f := by
  induction l with
  | nil => rfl
  | cons x xs ih =>
    by_cases hx : p x = true <;>
      simp [List.filterMap_cons, List.filter_cons, hx, ih]

/-- With pairwise distinct company names, the node map resolves each
row's name to that row's node. -/
lemma nodeMapGet_createNodes (rows : List CompanyData) (r : CompanyData)
    (hnodup : (rows.map CompanyData.Company).Nodup) (hr : r ∈ rows) :
    nodeMapGet (createNodes rows) r.Company = some (makeNode r) := by
  induction rows with
  | nil => cases hr
  | cons x xs ih =>
    rw [List.map_cons, List.nodup_cons] at hnodup
    obtain ⟨hx, hxs⟩ := hnodup
    rw [nodeMapGet, createNodes, List.map_cons, List.reverse_cons, List.find?_append]
    rcases List.mem_cons.mp hr with rfl | hrmem
    · have hnone :
          (List.map makeNode xs).reverse.find? (fun node => node.id == r.Company) = none := by
        rw [List.find?_eq_none]
        intro a ha
        rw [List.mem_reverse, List.mem_map] at ha
        obtain ⟨y, hy, rfl⟩ := ha
        simp only [makeNode, beq_iff_eq]
        intro hbeq
        exact hx (hbeq ▸ List.mem_map_of_mem CompanyData.Company hy)
      rw [hnone]
      simp [List.find?, makeNode]
    · have := ih hxs hrmem
      rw [nodeMapGet, createNodes] at this
      rw [this, Option.or_some]

/-- With pairwise distinct company names, the link construction is the
plain double loop: for every outer row, one link to each other row
whose name occurs in the outer row's Acquisition History. -/
lemma createLinks_characterization (rows : List CompanyData)
    (hnodup : (rows.map CompanyData.Company).Nodup) :
    createLinks rows = rows.flatMap fun company =>
      (rows.filter fun o =>
          jsIncludes company.AcquisitionHistory o.Company
            && company.Company != o.Company).map
        fun o => { source := makeNode company, target := makeNode o } := by
  rw [createLinks]
  apply flatMap_congr_mem
  intro company hcmem
  have hsrc := nodeMapGet_createNodes rows company hnodup hcmem
  have hcand : ∀ o ∈ rows, linkCandidate (createNodes rows) company o =
      if jsIncludes company.AcquisitionHistory o.Company
          && company.Company != o.Company then
        some { source := makeNode company, target := makeNode o }
      else none := by
    intro o ho
    rw [linkCandidate, hsrc, nodeMapGet_createNodes rows o hnodup ho]
  rw [filterMap_congr_mem _ _ _ hcand, filterMap_guard_eq_map_filter]

/-- C1 (amended): when row B's Acquisition History contains row A's
company name, the derived link runs from B's node to A's node: the row
whose history text matches is the source, the mentioned company the
target. -/
theorem acquisition_link_direction (rows : List CompanyData) (A B : CompanyData)
    (hnodup : (rows.map CompanyData.Company).Nodup)
    (hA : A ∈ rows) (hB : B ∈ rows) (hne : A.Company ≠ B.Company)
    (hBA : jsIncludes B.AcquisitionHistory A.Company = true)
    (_hAB : jsIncludes A.AcquisitionHistory B.Company = false) :
    ({ source := makeNode B, target := makeNode A } : Link) ∈ createLinks rows := by
  rw [createLinks_characterization rows hnodup, List.mem_flatMap]
  refine ⟨B, hB, ?_⟩
  rw [List.mem_map]
  refine ⟨A, ?_, rfl⟩
  rw [List.mem_filter]
  exact ⟨hA, by rw [Bool.and_eq_true, bne_iff_ne]; exact ⟨hBA, Ne.symm hne⟩⟩

theorem acquisition_link_direction_witness :
    ({ source := makeNode betaRow, target := makeNode acmeRow } : Link) ∈
      createLinks [acmeRow, betaRow] :=
  acquisition_link_direction [acmeRow, betaRow] acmeRow betaRow
    (by decide) (by decide) (by decide) (by decide) (by decide) (by decide)

/-- C1 fails as stated: on the spec's own example rows, the derived
link list is exactly one link from Beta's node to Acme's node, and no
link has source id Acme and target id Beta. -/
theorem acquisition_link_direction_counterexample :
    createLinks [acmeRow, betaRow] =
        [{ source := makeNode betaRow, target := makeNode acmeRow }] ∧
      ¬ ∃ l ∈ createLinks [acmeRow, betaRow],
          l.source.id = "Acme" ∧ l.target.id = "Beta" := by
  decide

/-- Holds of a link whose endpoints are the nodes of rows A and B, in
either direction. -/
def linksBetween (A B : CompanyData) (l : Link) : Bool :=
  (l.source.id == A.Company && l.target.id == B.Company) ||
  (l.source.id == B.Company && l.target.id == A.Company)

lemma countP_flatMap {α β : Type _} (l : List α) (f : α → List β) (p : β → Bool) :
    (l.flatMap f).countP p = (l.map fun a => (f a).countP p).sum := by
  induction l with
  | nil => rfl
  | cons x xs ih =>
    rw [List.flatMap_cons, List.countP_append, List.map_cons, List.sum_cons, ih]

lemma countP_congr_mem {α : Type _} (l : List α) (p q : α → Bool)
    (h : ∀ a ∈ l, p a = q a) : l.countP p = l.countP q := by
  induction l with
  | nil => rfl
  | cons x xs ih =>
    rw [List.countP_cons, List.countP_cons, h x (List.mem_cons_self x xs),
      ih fun a ha => h a (List.mem_cons_of_mem _ ha)]

/-- With pairwise distinct company names, exactly one row carries a
given member's name. -/
lemma countP_company_eq_one (rows : List CompanyData) (B : CompanyData)
    (hnodup : (rows.map CompanyData.Company).Nodup) (hB : B ∈ rows) :
    (rows.countP fun o => o.Company == B.Company) = 1 := by
  have : (rows.countP fun o => o.Company == B.Company) =
      ((rows.map CompanyData.Company).countP fun s => s == B.Company) := by
    rw [List.countP_map]; rfl
  rw [this, ← List.count_eq_countP]
  exact List.count_eq_one_of_mem hnodup (List.mem_map_of_mem _ hB)

/-- C7: the link construction checks both orders of a pair
independently and never deduplicates: when two rows of the filtered set
each mention the other's company name in their Acquisition History,
exactly two links join their nodes, one in each direction. -/
theorem mutual_references_two_links (rows : List CompanyData) (A B : CompanyData)
    (hnodup : (rows.map CompanyData.Company).Nodup)
    (hA : A ∈ rows) (hB : B ∈ rows) (hne : A.Company ≠ B.Company)
    (hAB : jsIncludes A.AcquisitionHistory B.Company = true)
    (hBA : jsIncludes B.AcquisitionHistory A.Company = true) :
    (createLinks rows).countP (linksBetween A B) = 2 := by
  have hinj := List.inj_on_of_nodup_map hnodup
  have hrownd : rows.Nodup := List.Nodup.of_map _ hnodup
  have hBneA : B ≠ A := fun h => hne (h ▸ rfl)
  rw [createLinks_characterization rows hnodup, countP_flatMap]
  have hrowcount : ∀ c ∈ rows,
      (((rows.filter fun o =>
            jsIncludes c.AcquisitionHistory o.Company && c.Company != o.Company).map
          fun o => ({ source := makeNode c, target := makeNode o } : Link)).countP
        (linksBetween A B)) =
      if c = A then 1 else if c = B then 1 else 0 := by
    intro c hc
    rw [List.countP_map, List.countP_filter]
    simp only [Function.comp_def]
    have hbneAB : (A.Company != B.Company) = true := bne_iff_ne.mpr hne
    have hbneBA : (B.Company != A.Company) = true := bne_iff_ne.mpr (Ne.symm hne)
    have hbeqAB : (A.Company == B.Company) = false := beq_eq_false_iff_ne.mpr hne
    have hbeqBA : (B.Company == A.Company) = false :=
      beq_eq_false_iff_ne.mpr (Ne.symm hne)
    by_cases hcA : c = A
    · rw [if_pos hcA]
      have hpoint : ∀ o ∈ rows,
          ((linksBetween A B { source := makeNode c, target := makeNode o } &&
            (jsIncludes c.AcquisitionHistory o.Company && c.Company != o.Company))) =
          (o.Company == B.Company) := by
        intro o ho
        rw [hcA]
        simp only [linksBetween, makeNode]
        by_cases hoB : o.Company = B.Company
        · have hoeq : o = B := hinj ho hB hoB
          rw [hoeq]
          simp [hAB, hbneAB, hbeqAB]
        · simp [beq_eq_false_iff_ne.mpr hoB, hbeqAB]
      rw [countP_congr_mem _ _ _ hpoint]
      exact countP_company_eq_one rows B hnodup hB
    · rw [if_neg hcA]
      by_cases hcB : c = B
      · rw [if_pos hcB]
        have hpoint : ∀ o ∈ rows,
            ((linksBetween A B { source := makeNode c, target := makeNode o } &&
              (jsIncludes c.AcquisitionHistory o.Company && c.Company != o.Company))) =
            (o.Company == A.Company) := by
          intro o ho
          rw [hcB]
          simp only [linksBetween, makeNode]
          by_cases hoA : o.Company = A.Company
          · have hoeq : o = A := hinj ho hA hoA
            rw [hoeq]
            simp [hBA, hbneBA, hbeqBA]
          · simp [beq_eq_false_iff_ne.mpr hoA, hbeqBA]
        rw [countP_congr_mem _ _ _ hpoint]
        exact countP_company_eq_one rows A hnodup hA
      · rw [if_neg hcB]
        have hnameA : c.Company ≠ A.Company := fun h => hcA (hinj hc hA h)
        have hnameB : c.Company ≠ B.Company := fun h => hcB (hinj hc hB h)
        have hpoint : ∀ o ∈ rows,
            ((linksBetween A B { source := makeNode c, target := makeNode o } &&
              (jsIncludes c.AcquisitionHistory o.Company && c.Company != o.Company))) =
            false := by
          intro o ho
          simp [linksBetween, makeNode, beq_eq_false_iff_ne.mpr hnameA,
            beq_eq_false_iff_ne.mpr hnameB]
        rw [countP_congr_mem _ _ _ hpoint, List.countP_false]
        rfl
  rw [List.map_congr_left hrowcount]
  have hBmem : B ∈ rows.erase A := (List.mem_erase_of_ne hBneA).mpr hB
  have hperm1 : rows.Perm (A :: rows.erase A) := List.perm_cons_erase hA
  have hperm2 : (rows.erase A).Perm (B :: (rows.erase A).erase B) :=
    List.perm_cons_erase hBmem
  rw [(hperm1.map fun c : CompanyData =>
      if c = A then (1 : ℕ) else if c = B then 1 else 0).sum_eq]
  rw [List.map_cons, List.sum_cons, if_pos rfl]
  rw [(hperm2.map fun c : CompanyData =>
      if c = A then (1 : ℕ) else if c = B then 1 else 0).sum_eq]
  rw [List.map_cons, List.sum_cons, if_neg hBneA, if_pos rfl]
  have hrest : (((rows.erase A).erase B).map fun c : CompanyData =>
      if c = A then (1 : ℕ) else if c = B then 1 else 0).sum = 0 := by
    apply List.sum_eq_zero
    intro x hx
    rw [List.mem_map] at hx
    obtain ⟨c, hcmem, rfl⟩ := hx
    have hcB : c ≠ B ∧ c ∈ rows.erase A :=
      ((hrownd.erase A).mem_erase_iff).mp hcmem
    have hcA : c ≠ A ∧ c ∈ rows := (hrownd.mem_erase_iff).mp hcB.2
    rw [if_neg hcA.1, if_neg hcB.1]
  rw [hrest]
  rfl

theorem mutual_references_two_links_witness :
    (createLinks [gammaRow, deltaRow]).countP (linksBetween gammaRow deltaRow) = 2 :=
  mutual_references_two_links [gammaRow, deltaRow] gammaRow deltaRow
    (by decide) (by decide) (by decide) (by decide) (by decide) (by decide)

end IndieOutdoors
